import Mathlib

/-!
# Verification development for the Smart Quote Pro pricing engine

Shallow embedding of `src/app.py`:
* `PricingEngine.calculate` — pattern extraction of price components from a
  product-description string, stroke surcharge via ceiling division, and the
  twelve option surcharges (with the ball-screw 280 default).
* `WeightEngine.calculate` — linear weight model with first-substring-match
  family resolution.
* `get_exchange_rate` — currency multiplier with offline fallback.

The Python code uses `re.search` with five kinds of regex atoms only:
literal runs, an optional character class (`[:：]?`), `\s*`, capturing digit
runs `(\d+)`, and lazy gaps `.*?`.  We embed exactly those atoms (`RE`) and a
backtracking matcher with `re.search`'s leftmost-match, greedy/lazy
backtracking order.  Python's `\d`/`\s` also cover some non-ASCII code points
and `.` excludes `'\n'`; we model `\d` as ASCII digits, `\s` via
`Char.isWhitespace`, and `.` as any character other than `'\n'`, which agrees
with Python on every description the catalog format produces.

Python `float` amounts are integer-valued throughout the pricing engine, so
amounts are `Nat`; weight and rate arithmetic is modelled exactly over `ℚ`.
An uncaught Python exception (the `ZeroDivisionError` of the stroke formula)
is modelled as `Except.error`.
-/

/-- ASCII decimal value of a digit character. -/
def digitVal (c : Char) : Nat := c.toNat - 48

/-- Value of a digit run, most significant first (Python `int(...)` on the
captured group). -/
def natOfDigits (l : List Char) : Nat := l.foldl (fun a c => 10 * a + digitVal c) 0

/-- Test whether `n` is a prefix of `s` (matching a literal regex atom). -/
def beginsWith : List Char → List Char → Bool
  | [], _ => true
  | _ :: _, [] => false
  | a :: as, b :: bs => a = b && beginsWith as bs

/-- Test whether `n` occurs as a contiguous substring of `s`
(Python's `n in s`). -/
def hasSub (n : List Char) : List Char → Bool
  | [] => n.isEmpty
  | c :: rest => beginsWith n (c :: rest) || hasSub n rest

/-- Length of the maximal whitespace run at the head of `s` (for `\s*`). -/
def wsLen : List Char → Nat
  | c :: rest => if c.isWhitespace then wsLen rest + 1 else 0
  | [] => 0

/-- Length of the maximal ASCII-digit run at the head of `s` (for `\d+`). -/
def digLen : List Char → Nat
  | c :: rest => if c.isDigit then digLen rest + 1 else 0
  | [] => 0

/-- Length of the maximal `'\n'`-free run at the head of `s`
(the characters `.` may consume). -/
def dotLen : List Char → Nat
  | c :: rest => if c = '\n' then 0 else dotLen rest + 1
  | [] => 0

/-- The regex atoms occurring in the `app.py` patterns. -/
inductive RE where
  /-- a literal character run -/
  | lit : List Char → RE
  /-- an optional single character from a class, `[c…]?` (greedy) -/
  | optCh : List Char → RE
  /-- a whitespace run `\s*` (greedy) -/
  | wsStar : RE
  /-- a capturing group of digits `(\d+)` (greedy) -/
  | digits : RE
  /-- a lazy gap `.*?` (with `.` not matching a newline) -/
  | anyLazy : RE
deriving DecidableEq

/-- First success of `f` along a list of candidate quantifier sizes:
the backtracking order of the enclosing alternatives. -/
def firstSome (f : Nat → Option (List Nat)) : List Nat → Option (List Nat)
  | [] => none
  | n :: ns =>
    match f n with
    | some r => some r
    | none => firstSome f ns

/-- Backtracking matcher: does a prefix of `s` match the pattern, and with
which captured numbers?  Greedy atoms try longer candidates first, the lazy
gap tries shorter first; exactly Python's backtracking order for these
patterns.  `fuel` only drives structural recursion: every call consumes one
unit and drops one atom, so `fuel = pattern length` never runs out. -/
def matchRE : Nat → List RE → List Char → Option (List Nat)
  | _, [], _ => some []
  | 0, _ :: _, _ => none
  | fuel + 1, RE.lit l :: ps, s =>
    if beginsWith l s then matchRE fuel ps (s.drop l.length) else none
  | fuel + 1, RE.optCh cs :: ps, s =>
    match s with
    | [] => matchRE fuel ps []
    | c :: rest =>
      if cs.contains c then
        match matchRE fuel ps rest with
        | some r => some r
        | none => matchRE fuel ps (c :: rest)
      else matchRE fuel ps (c :: rest)
  | fuel + 1, RE.wsStar :: ps, s =>
    firstSome (fun k => matchRE fuel ps (s.drop k)) ((List.range (wsLen s + 1)).reverse)
  | fuel + 1, RE.digits :: ps, s =>
    firstSome
      (fun k => Option.map (fun caps => natOfDigits (s.take k) :: caps) (matchRE fuel ps (s.drop k)))
      (List.map (fun i => digLen s - i) (List.range (digLen s)))
  | fuel + 1, RE.anyLazy :: ps, s =>
    firstSome (fun j => matchRE fuel ps (s.drop j)) (List.range (dotLen s + 1))

/-- Search like `re.search`: try each start position left to right, return the captured
numbers of the leftmost match. -/
def reSearch (p : List RE) : List Char → Option (List Nat)
  | [] => matchRE p.length p []
  | c :: rest =>
    match matchRE p.length p (c :: rest) with
    | some r => some r
    | none => reSearch p rest

/-- A line of the itemized cost log.  Each Python log string is determined
injectively by one of these constructors (the formatted text carries exactly
these data). -/
inductive LogEntry where
  /-- the entry `"Error: No description"` -/
  | errNoDesc : LogEntry
  /-- the entry `f"基础价格 (Base): {base_price} CNY"` -/
  | base : Nat → LogEntry
  /-- the entry `f"行程加价 ({stroke_req}mm): +{cost} CNY"` -/
  | strokeInc : Int → Nat → LogEntry
  /-- the entry `f"{name}: +{cost} CNY"` -/
  | addon : String → Nat → LogEntry
  /-- the entry `f"{name}: +280 CNY (Default)"` -/
  | addonDefault : String → Nat → LogEntry
deriving DecidableEq

/-- The `desc` argument: either a Python `str` or any non-`str` value
(the `isinstance(desc, str)` guard only inspects this shape). -/
inductive DescInput where
  | text : String → DescInput
  | nonText : DescInput

/-- Pattern `r'单价[:：]?\s*(\d+)'`. -/
def basePat : List RE :=
  [RE.lit "单价".toList, RE.optCh [':', '：'], RE.wsStar, RE.digits]

/-- Pattern `r'行程(\d+)-(\d+).*?每加行程(\d+)毫米加(\d+)元'`. -/
def strokePat : List RE :=
  [RE.lit "行程".toList, RE.digits, RE.lit ['-'], RE.digits, RE.anyLazy,
   RE.lit "每加行程".toList, RE.digits, RE.lit "毫米加".toList, RE.digits, RE.lit ['元']]

/-- Pattern `r'滚珠丝杆.*?加(\d+)元'`. -/
def ballPat : List RE :=
  [RE.lit "滚珠丝杆".toList, RE.anyLazy, RE.lit ['加'], RE.digits, RE.lit ['元']]

/-- The `addon_map` dict of `app.py`, in its declared insertion order:
option key, surcharge pattern, display name. -/
def addonMap : List (String × List RE × String) :=
  [("ball_screw", ballPat, "滚珠丝杆 (Ball Screw)"),
   ("fisheye", [RE.lit "鱼眼".toList, RE.anyLazy, RE.lit ['加'], RE.digits, RE.lit ['元']],
    "鱼眼接头 (Fisheye)"),
   ("rear_plate", [RE.lit "后接头加底板".toList, RE.anyLazy, RE.lit ['加'], RE.digits, RE.lit ['元']],
    "后底板 (Rear Plate)"),
   ("front_plate", [RE.lit "前接头".toList, RE.anyLazy, RE.lit "加顶板".toList, RE.anyLazy,
      RE.lit ['加'], RE.digits, RE.lit ['元']],
    "前顶板 (Front Plate)"),
   ("machining", [RE.lit "开槽和孔径".toList, RE.anyLazy, RE.digits, RE.lit ['元']],
    "开槽加工 (Machining)"),
   ("hall", [RE.lit "加霍尔".toList, RE.anyLazy, RE.lit ['加'], RE.digits, RE.lit ['元']],
    "霍尔感应 (Hall Sensor)"),
   ("comm", [RE.lit "通讯".toList, RE.anyLazy, RE.lit ['加'], RE.digits, RE.lit ['元']],
    "RS485/CAN"),
   ("pot", [RE.lit "电位器".toList, RE.anyLazy, RE.lit ['加'], RE.digits, RE.lit ['元']],
    "电位器 (Potentiometer)"),
   ("ctrl_1", [RE.lit "单控".toList, RE.anyLazy, RE.digits, RE.lit ['元']], "单控 (Single Ctrl)"),
   ("ctrl_2", [RE.lit "二同步".toList, RE.anyLazy, RE.digits, RE.lit ['元']], "二同步 (Dual Ctrl)"),
   ("ctrl_3", [RE.lit "三同步".toList, RE.anyLazy, RE.digits, RE.lit ['元']], "三同步 (Triple Ctrl)"),
   ("ctrl_4", [RE.lit "四同步".toList, RE.anyLazy, RE.digits, RE.lit ['元']], "四同步 (Quad Ctrl)")]

/-- The twelve fixed option keys, in declaration order. -/
def addonKeys : List String := addonMap.map Prod.fst

/-- Python `options.get(key)` truthiness: an absent key reads as `False`. -/
def optGet (opts : List (String × Bool)) (k : String) : Bool :=
  match opts.lookup k with
  | some b => b
  | none => false

/-- First captured group of a search, `m.group(1)`.  Every pattern in
`addon_map`, `basePat` and `strokePat` contains a `(\d+)` group, so a match
always carries at least one capture and `Option.bind · List.head?` is the
exact `if m: … int(m.group(1))` idiom. -/
def searchG1 (p : List RE) (s : List Char) : Option Nat :=
  Option.bind (reSearch p s) List.head?

namespace PricingEngine

/-- The body of the `for key, (pat, name) in addon_map.items()` loop:
one option's contribution to the accumulating total and log.  `entry.1` is
the option key, `entry.2.1` its pattern, `entry.2.2` its display name. -/
def addonStep (s : List Char) (options : List (String × Bool))
    (acc : Nat × List LogEntry) (entry : String × List RE × String) :
    Nat × List LogEntry :=
  if optGet options entry.1 then
    match searchG1 entry.2.1 s with
    | some cost => (acc.1 + cost, acc.2 ++ [LogEntry.addon entry.2.2 cost])
    | none =>
      if entry.1 = "ball_screw" then (acc.1 + 280, acc.2 ++ [LogEntry.addonDefault entry.2.2 280])
      else acc
  else acc

/-- Surcharge `cost = math.ceil((stroke_req - base_end) / inc_len) * inc_cost` when the
requested stroke exceeds the range's upper bound, else no surcharge.
`(d + incLen - 1) / incLen` is the ceiling of `d / incLen` for `0 < incLen`. -/
def strokeSurcharge (baseEnd incLen incCost : Nat) (strokeReq : Int) : Nat :=
  if (baseEnd : Int) < strokeReq then
    (((strokeReq - baseEnd).toNat + incLen - 1) / incLen) * incCost
  else 0

/-- The base-price extraction: `if base_match: total += …; logs.append(…)`. -/
def basePart (s : List Char) : Nat × List LogEntry :=
  match searchG1 basePat s with
  | some b => (b, [LogEntry.base b])
  | none => (0, [])

/-- The stroke-increment block.  The four captures of `strokePat` are the
range start, the range end `base_end`, `inc_len` and `inc_cost`; Python's
unguarded `ZeroDivisionError` on `inc_len == 0` is `Except.error`. -/
def strokePart (s : List Char) (strokeReq : Int) : Except String (Nat × List LogEntry) :=
  match reSearch strokePat s with
  | some (_ :: baseEnd :: incLen :: incCost :: _) =>
    if (baseEnd : Int) < strokeReq then
      if incLen = 0 then Except.error "ZeroDivisionError"
      else
        Except.ok (strokeSurcharge baseEnd incLen incCost strokeReq,
          [LogEntry.strokeInc strokeReq (strokeSurcharge baseEnd incLen incCost strokeReq)])
    else Except.ok (0, [])
  | _ => Except.ok (0, [])

/-- Model of `PricingEngine.calculate(desc, options, stroke_req)`: base price, then
stroke increment, then the twelve options in declaration order, accumulating
a running total and an ordered log. -/
def calculate (desc : DescInput) (options : List (String × Bool)) (strokeReq : Int) :
    Except String (Nat × List LogEntry) :=
  match desc with
  | DescInput.nonText => Except.ok (0, [LogEntry.errNoDesc])
  | DescInput.text d =>
    match strokePart d.toList strokeReq with
    | Except.error e => Except.error e
    | Except.ok (strokeCost, strokeLog) =>
      Except.ok (addonMap.foldl (addonStep d.toList options)
        ((basePart d.toList).1 + strokeCost, (basePart d.toList).2 ++ strokeLog))

end PricingEngine

namespace WeightEngine

/-- The `MODEL_PARAMS` table in declared insertion order:
key, (base weight in kg, factor in kg/mm), floats read exactly into `ℚ`. -/
def MODEL_PARAMS : List (String × ℚ × ℚ) :=
  [("520", (44/10, 50/10000)), ("521", (39/10, 60/10000)),
   ("524", (34/10, 50/10000)), ("523", (24/10, 40/10000)),
   ("525", (21/10, 40/10000)), ("522", (11/10, 25/10000)),
   ("526", (15/10, 30/10000)), ("528", (35/10, 55/10000)),
   ("Default", (4, 50/10000))]

/-- The `for k in MODEL_PARAMS.keys(): if k in str(model_str): key = k; break`
loop: first key, in insertion order, that is a substring of the identifier;
`"Default"` when none is. -/
def resolveKey (modelStr : String) : String :=
  match MODEL_PARAMS.find? (fun e => hasSub e.1.toList modelStr.toList) with
  | some e => e.1
  | none => "Default"

/-- Model of `MODEL_PARAMS[key]`.  `resolveKey` always returns a key of the table
(the `"Default"` fallback is itself an entry), so the `getD` default — set to
the `"Default"` parameters — is never consulted. -/
def paramsFor (key : String) : ℚ × ℚ := (MODEL_PARAMS.lookup key).getD (4, 50/10000)

/-- Model of `WeightEngine.calculate(model_str, stroke_mm, qty)`. -/
def calculate (modelStr : String) (strokeMm qty : ℚ) : ℚ × ℚ :=
  let p := paramsFor (resolveKey modelStr)
  let single := p.1 + strokeMm * p.2
  (single, single * qty)

end WeightEngine

/-- The static offline fallback table of `get_exchange_rate`. -/
def fallbackRates : List (String × ℚ) :=
  [("USD", 138/1000), ("EUR", 127/1000), ("GBP", 109/1000)]

/-- Model of `get_exchange_rate(to_curr)`.  The whole network interaction — URL build,
HTTP GET with timeout, JSON parse, `data['rates'][to_curr]` — sits inside one
bare `try/except`, so it is one oracle `fetch : String → Option ℚ`: `some r`
iff every step succeeded with rate `r`, `none` for any exception (timeout,
transport, parse, missing key).  The `except` arm is the fallback lookup with
generic default `0.14`. -/
def get_exchange_rate (fetch : String → Option ℚ) (toCurr : String) : ℚ :=
  if toCurr = "CNY" then 1
  else
    match fetch toCurr with
    | some r => r
    | none => (fallbackRates.lookup toCurr).getD (14/100)

/-- The keys of `MODEL_PARAMS`, in declared insertion order. -/
def weightKeys : List String := WeightEngine.MODEL_PARAMS.map Prod.fst

/-- Modelled from the spec (§4.3), for comparison with the code's
`WeightEngine.resolveKey`: "find the first table key that is a textual
substring of `modelIdentifier`; table iteration order is the declared
insertion order, so if multiple keys could match, the first declared wins";
"Unmatched `modelIdentifier` (no substring match) resolves to the
\"Default\" entry." -/
def resolveKeySpec : List String → String → String
  | [], _ => "Default"
  | k :: ks, m => if hasSub k.toList m.toList then k else resolveKeySpec ks m

/-! ### Helper lemmas -/

/-- Ceiling division: `(d + L - 1) / L` in `ℕ` is the rational ceiling of `d / L`. -/
theorem ceilDiv_cast (d L : Nat) (hL : 0 < L) (hd : 0 < d) :
    (((d + L - 1) / L : Nat) : Int) = ⌈(d : ℚ) / (L : ℚ)⌉ := by
  have hL' : (0 : ℚ) < (L : ℚ) := by exact_mod_cast hL
  have h1 : (d + L - 1) / L * L ≤ d + L - 1 := Nat.div_mul_le_self _ _
  have h2 : d + L - 1 < (d + L - 1) / L * L + L := Nat.lt_div_mul_add hL
  obtain ⟨n, hn⟩ : ∃ n, (d + L - 1) / L = n := ⟨_, rfl⟩
  rw [hn] at h1 h2 ⊢
  have hub : (d : ℚ) ≤ (n : ℚ) * L := by
    have : d ≤ n * L := by omega
    exact_mod_cast this
  have hlb : (n : ℚ) * L < (d : ℚ) + L := by
    have : n * L < d + L := by omega
    exact_mod_cast this
  symm
  rw [Int.ceil_eq_iff]
  refine ⟨?_, ?_⟩
  · rw [lt_div_iff₀ hL']
    push_cast
    nlinarith
  · rw [div_le_iff₀ hL']
    push_cast
    exact hub

/-- An option entry whose key is unselected leaves the accumulator alone. -/
theorem addonStep_unselected (s : List Char) (opts : List (String × Bool))
    (acc : Nat × List LogEntry) (entry : String × List RE × String)
    (h : optGet opts entry.1 = false) :
    PricingEngine.addonStep s opts acc entry = acc := by
  simp [PricingEngine.addonStep, h]

/-- Folding the option loop over entries none of which is selected is the
identity on the accumulator. -/
theorem foldl_addonStep_skip (s : List Char) (opts : List (String × Bool))
    (l : List (String × List RE × String)) (init : Nat × List LogEntry)
    (h : ∀ e ∈ l, optGet opts e.1 = false) :
    List.foldl (PricingEngine.addonStep s opts) init l = init := by
  induction l generalizing init with
  | nil => rfl
  | cons e t ih =>
    rw [List.foldl_cons, addonStep_unselected s opts init e (h _ (List.mem_cons_self _ _))]
    exact ih _ (fun e' he' => h e' (List.mem_cons_of_mem _ he'))

/-- The option loop reads its options argument only through `optGet` at the
entry's key. -/
theorem foldl_addonStep_congr (s : List Char) (o1 o2 : List (String × Bool))
    (l : List (String × List RE × String)) (init : Nat × List LogEntry)
    (h : ∀ e ∈ l, optGet o1 e.1 = optGet o2 e.1) :
    List.foldl (PricingEngine.addonStep s o1) init l
      = List.foldl (PricingEngine.addonStep s o2) init l := by
  induction l generalizing init with
  | nil => rfl
  | cons e t ih =>
    rw [List.foldl_cons, List.foldl_cons]
    have he : PricingEngine.addonStep s o1 init e = PricingEngine.addonStep s o2 init e := by
      unfold PricingEngine.addonStep
      rw [h _ (List.mem_cons_self _ _)]
    rw [he]
    exact ih _ (fun e' he' => h e' (List.mem_cons_of_mem _ he'))

/-- Congruence: `calculate` depends on the option mapping only through `optGet` at the
twelve fixed keys. -/
theorem calculate_opts_congr (d : DescInput) (o1 o2 : List (String × Bool)) (strokeReq : Int)
    (h : ∀ k ∈ addonKeys, optGet o1 k = optGet o2 k) :
    PricingEngine.calculate d o1 strokeReq = PricingEngine.calculate d o2 strokeReq := by
  cases d with
  | nonText => rfl
  | text t =>
    simp only [PricingEngine.calculate]
    cases hs : PricingEngine.strokePart t.toList strokeReq with
    | error e => rfl
    | ok p =>
      obtain ⟨sc, sl⟩ := p
      exact congrArg Except.ok (foldl_addonStep_congr _ _ _ _ _
        (fun e he => h e.1 (List.mem_map_of_mem _ he)))

theorem optGet_cons (k k' : String) (b : Bool) (opts : List (String × Bool)) :
    optGet ((k', b) :: opts) k = if k = k' then b else optGet opts k := by
  unfold optGet
  rw [List.lookup_cons]
  by_cases h : k = k'
  · simp [h]
  · have hb : (k == k') = false := beq_eq_false_iff_ne.mpr h
    simp [hb, h]

theorem lookup_none_of_keys_ne (l : List (String × Bool)) (k : String)
    (h : ∀ p ∈ l, p.1 ≠ k) : l.lookup k = none := by
  induction l with
  | nil => rfl
  | cons a t ih =>
    obtain ⟨a1, a2⟩ := a
    rw [List.lookup_cons]
    have hb : (k == a1) = false :=
      beq_eq_false_iff_ne.mpr (fun he => h (a1, a2) (List.mem_cons_self _ _) he.symm)
    rw [hb]
    exact ih (fun p hp => h p (List.mem_cons_of_mem _ hp))

theorem lookup_append_of_right_none (l1 l2 : List (String × Bool)) (k : String)
    (h : l2.lookup k = none) : (l1 ++ l2).lookup k = l1.lookup k := by
  induction l1 with
  | nil => simpa using h
  | cons a t ih =>
    obtain ⟨a1, a2⟩ := a
    rw [List.cons_append, List.lookup_cons, List.lookup_cons]
    by_cases hb : (k == a1) = true
    · rw [hb]
    · rw [Bool.not_eq_true] at hb
      rw [hb]
      exact ih

/-- First-match evaluation of `find?` on the parameter table against the
spec-side recursion. -/
theorem find?_params_eq_spec (l : List (String × ℚ × ℚ)) (m : String) :
    (match l.find? (fun e => hasSub e.1.toList m.toList) with
     | some e => e.1
     | none => "Default") = resolveKeySpec (l.map Prod.fst) m := by
  induction l with
  | nil => rfl
  | cons e t ih =>
    by_cases h : hasSub e.1.toList m.toList = true
    · rw [List.find?_cons_of_pos]
      · show e.1 = resolveKeySpec (List.map Prod.fst (e :: t)) m
        simp only [List.map_cons]
        unfold resolveKeySpec
        rw [if_pos h]
      · exact h
    · rw [List.find?_cons_of_neg]
      · simp only [List.map_cons]
        unfold resolveKeySpec
        rw [if_neg h]
        exact ih
      · simpa using h

/-- The code's model-family resolution coincides with the spec's wording. -/
theorem resolveKey_eq_spec (m : String) :
    WeightEngine.resolveKey m = resolveKeySpec weightKeys m :=
  find?_params_eq_spec WeightEngine.MODEL_PARAMS m

/-! ### Claims -/

/-- C1: the claim asserts that a matched stroke-increment pattern with a zero
increment length is guarded and never reaches the division.  The code has no
such guard: on the description below, with requested stroke 600 above the
range bound 500, `math.ceil((600 - 500) / 0)` raises an unhandled
`ZeroDivisionError` (here: `Except.error`). -/
theorem claim1_zero_increment_divzero :
    PricingEngine.calculate (DescInput.text "行程100-500 每加行程0毫米加20元") [] 600
      = Except.error "ZeroDivisionError" := rfl

/-- C2: with a positive increment length, the stroke surcharge is `0` for a
requested stroke at or below the range end, and
`ceil((stroke − B) / inc_len) × inc_cost` above it; on the demo description
with stroke 600 and no options, the total is 1040 with base 1000 and
surcharge 40. -/
theorem claim2_stroke_surcharge :
    (∀ (baseEnd incLen incCost : Nat) (strokeReq : Int), 0 < incLen →
      (PricingEngine.strokeSurcharge baseEnd incLen incCost strokeReq : Int)
        = if strokeReq ≤ (baseEnd : Int) then 0
          else ⌈((strokeReq : ℚ) - (baseEnd : ℚ)) / (incLen : ℚ)⌉ * (incCost : Int))
    ∧ PricingEngine.calculate
        (DescInput.text "单价:1000 行程100-500 每加行程50毫米加20元") [] 600
      = Except.ok (1040, [LogEntry.base 1000, LogEntry.strokeInc 600 40]) := by
  constructor
  · intro baseEnd incLen incCost strokeReq hL
    unfold PricingEngine.strokeSurcharge
    by_cases h : (baseEnd : Int) < strokeReq
    · rw [if_pos h, if_neg (not_le.mpr h)]
      have hd : 0 < (strokeReq - (baseEnd : Int)).toNat := by omega
      have hcast : ((strokeReq : ℚ) - (baseEnd : ℚ))
          = (((strokeReq - (baseEnd : Int)).toNat : Nat) : ℚ) := by
        have h3 : (((strokeReq - (baseEnd : Int)).toNat : Nat) : Int) = strokeReq - baseEnd :=
          Int.toNat_of_nonneg (by omega)
        have h4 : ((((strokeReq - (baseEnd : Int)).toNat : Nat) : Int) : ℚ)
            = ((strokeReq - (baseEnd : Int) : Int) : ℚ) := by rw [h3]
        push_cast at h4
        linarith
      rw [hcast, Nat.cast_mul, ceilDiv_cast _ _ hL hd]
    · rw [if_neg h, if_pos (not_lt.mp h)]
      simp
  · rfl

/-- Witness for C2 at `B = 500`, `inc_len = 50`, `inc_cost = 20`,
stroke 600. -/
theorem claim2_stroke_surcharge_app :
    (PricingEngine.strokeSurcharge 500 50 20 600 : Int)
      = if (600 : Int) ≤ ((500 : Nat) : Int) then 0
        else ⌈(((600 : Int) : ℚ) - ((500 : Nat) : ℚ)) / ((50 : Nat) : ℚ)⌉ * ((20 : Nat) : Int) :=
  claim2_stroke_surcharge.1 500 50 20 600 (by norm_num)

/-- When only the ball-screw option is selected and its pattern is absent,
the whole calculation gains exactly 280 and the appended default log line. -/
theorem foldl_addonStep_ball_only (s : List Char) (hball : reSearch ballPat s = none)
    (init : Nat × List LogEntry) :
    List.foldl (PricingEngine.addonStep s [("ball_screw", true)]) init addonMap
      = (init.1 + 280, init.2 ++ [LogEntry.addonDefault "滚珠丝杆 (Ball Screw)" 280]) := by
  rw [show addonMap = ("ball_screw", ballPat, "滚珠丝杆 (Ball Screw)") :: addonMap.tail from rfl,
    List.foldl_cons]
  rw [show PricingEngine.addonStep s [("ball_screw", true)] init
        ("ball_screw", ballPat, "滚珠丝杆 (Ball Screw)")
      = (init.1 + 280, init.2 ++ [LogEntry.addonDefault "滚珠丝杆 (Ball Screw)" 280]) from by
    unfold PricingEngine.addonStep searchG1
    rw [hball]
    rfl]
  exact foldl_addonStep_skip _ _ _ _ (by decide)

/-- C3: a selected ball-screw option whose surcharge pattern is absent from
the description adds exactly 280 and a "(Default)" log entry; any other
selected option with an absent pattern contributes nothing and logs
nothing. -/
theorem claim3_ball_screw_default :
    (∀ (d : String) (strokeReq : Int), reSearch ballPat d.toList = none →
      PricingEngine.calculate (DescInput.text d) [("ball_screw", true)] strokeReq
        = Except.map
            (fun r => (r.1 + 280, r.2 ++ [LogEntry.addonDefault "滚珠丝杆 (Ball Screw)" 280]))
            (PricingEngine.calculate (DescInput.text d) [] strokeReq))
    ∧ (∀ (s : List Char) (opts : List (String × Bool)) (acc : Nat × List LogEntry)
        (key : String) (pat : List RE) (name : String), key ≠ "ball_screw" →
        optGet opts key = true → reSearch pat s = none →
        PricingEngine.addonStep s opts acc (key, pat, name) = acc) := by
  constructor
  · intro d strokeReq hball
    simp only [PricingEngine.calculate]
    cases hs : PricingEngine.strokePart d.toList strokeReq with
    | error e => rfl
    | ok p =>
      obtain ⟨sc, sl⟩ := p
      show Except.ok (List.foldl (PricingEngine.addonStep d.toList [("ball_screw", true)])
            ((PricingEngine.basePart d.toList).1 + sc, (PricingEngine.basePart d.toList).2 ++ sl)
            addonMap)
          = Except.map
              (fun r => (r.1 + 280, r.2 ++ [LogEntry.addonDefault "滚珠丝杆 (Ball Screw)" 280]))
              (Except.ok (List.foldl (PricingEngine.addonStep d.toList [])
                ((PricingEngine.basePart d.toList).1 + sc,
                 (PricingEngine.basePart d.toList).2 ++ sl) addonMap))
      rw [foldl_addonStep_ball_only _ hball, foldl_addonStep_skip _ _ _ _ (by decide)]
      rfl
  · intro s opts acc key pat name hk hsel hnone
    unfold PricingEngine.addonStep
    rw [hsel]
    unfold searchG1
    rw [hnone]
    simp [hk]

/-- Witness for C3 on the empty description. -/
theorem claim3_ball_screw_default_app :
    PricingEngine.calculate (DescInput.text "") [("ball_screw", true)] 0
      = Except.map
          (fun r => (r.1 + 280, r.2 ++ [LogEntry.addonDefault "滚珠丝杆 (Ball Screw)" 280]))
          (PricingEngine.calculate (DescInput.text "") [] 0) :=
  claim3_ball_screw_default.1 "" 0 rfl

/-- C4: `get_exchange_rate` is a total function of the fetch outcome; when
the external lookup fails it returns the static fallback multiplier for USD,
EUR and GBP and the generic default `0.14` for any other non-base currency,
never an error. -/
theorem claim4_rate_fallback :
    ∀ (fetch : String → Option ℚ) (toCurr : String), fetch toCurr = none →
      get_exchange_rate fetch toCurr
        = if toCurr = "CNY" then 1
          else if toCurr = "USD" then 138/1000
          else if toCurr = "EUR" then 127/1000
          else if toCurr = "GBP" then 109/1000
          else 14/100 := by
  intro fetch toCurr h
  by_cases hC : toCurr = "CNY"
  · subst hC; rfl
  · by_cases hU : toCurr = "USD"
    · subst hU
      unfold get_exchange_rate
      rw [h]
      rfl
    · by_cases hE : toCurr = "EUR"
      · subst hE
        unfold get_exchange_rate
        rw [h]
        rfl
      · by_cases hG : toCurr = "GBP"
        · subst hG
          unfold get_exchange_rate
          rw [h]
          rfl
        · unfold get_exchange_rate
          rw [if_neg hC, h, if_neg hC, if_neg hU, if_neg hE, if_neg hG]
          have u : (toCurr == "USD") = false := beq_eq_false_iff_ne.mpr hU
          have e : (toCurr == "EUR") = false := beq_eq_false_iff_ne.mpr hE
          have g : (toCurr == "GBP") = false := beq_eq_false_iff_ne.mpr hG
          simp [fallbackRates, List.lookup_cons, u, e, g]

/-- Witness for C4: a currency outside the fallback table, with a failing
fetch, resolves to the generic default. -/
theorem claim4_rate_fallback_app :
    get_exchange_rate (fun _ => none) "AUD"
      = if "AUD" = "CNY" then 1
        else if "AUD" = "USD" then 138/1000
        else if "AUD" = "EUR" then 127/1000
        else if "AUD" = "GBP" then 109/1000
        else 14/100 :=
  claim4_rate_fallback (fun _ => none) "AUD" rfl

/-- C5: for the base currency the multiplier is exactly 1 and the fetch
oracle is never consulted — the result is the same for every fetch
function. -/
theorem claim5_base_currency_rate :
    ∀ (f g : String → Option ℚ),
      get_exchange_rate f "CNY" = 1
        ∧ get_exchange_rate f "CNY" = get_exchange_rate g "CNY" :=
  fun _ _ => ⟨rfl, rfl⟩

/-- C6: the weight engine computes `single = base + stroke × factor` and
`total = single × qty` with `base`/`factor` taken from the spec-side
model-family resolution; on model "524", stroke 200, quantity 3 it yields
4.40 kg and 13.20 kg. -/
theorem claim6_weight_formula :
    (∀ (m : String) (strokeMm qty : ℚ),
      WeightEngine.calculate m strokeMm qty
        = ((WeightEngine.paramsFor (resolveKeySpec weightKeys m)).1
             + strokeMm * (WeightEngine.paramsFor (resolveKeySpec weightKeys m)).2,
           ((WeightEngine.paramsFor (resolveKeySpec weightKeys m)).1
             + strokeMm * (WeightEngine.paramsFor (resolveKeySpec weightKeys m)).2) * qty))
    ∧ WeightEngine.calculate "524" 200 3 = (44/10, 132/10) := by
  constructor
  · intro m strokeMm qty
    unfold WeightEngine.calculate
    rw [resolveKey_eq_spec]
  · show (34/10 + 200 * (50/10000 : ℚ), (34/10 + 200 * (50/10000 : ℚ)) * 3) = _
    norm_num

/-- C7: model-family resolution picks the first declared table key that is a
substring of the identifier (the code's `find?` equals the spec's first-match
recursion); with no substring match it falls back to "Default"; on
"524521", which contains both "521" and "524", the first declared key "521"
wins. -/
theorem claim7_first_match_resolution :
    (∀ m : String, WeightEngine.resolveKey m = resolveKeySpec weightKeys m)
    ∧ (∀ m : String, (∀ k ∈ weightKeys, hasSub k.toList m.toList = false) →
        WeightEngine.resolveKey m = "Default")
    ∧ WeightEngine.resolveKey "524521" = "521" := by
  refine ⟨resolveKey_eq_spec, ?_, rfl⟩
  intro m h
  have hn : WeightEngine.MODEL_PARAMS.find? (fun e => hasSub e.1.toList m.toList) = none :=
    List.find?_eq_none.mpr (fun e he => by
      have hh := h e.1 (List.mem_map_of_mem _ he)
      simp only [Bool.not_eq_true]
      exact hh)
  unfold WeightEngine.resolveKey
  rw [hn]

/-- Witness for C7 on the identifier "999", which contains no table key. -/
theorem claim7_first_match_resolution_app :
    WeightEngine.resolveKey "999" = "Default" :=
  claim7_first_match_resolution.2.1 "999" (by decide)

/-- C8: a non-text description yields total 0, exactly the one diagnostic log
entry, and an `ok` result (no exception), for every option mapping and
stroke. -/
theorem claim8_nontext_description :
    ∀ (opts : List (String × Bool)) (strokeReq : Int),
      PricingEngine.calculate DescInput.nonText opts strokeReq
        = Except.ok (0, [LogEntry.errNoDesc]) :=
  fun _ _ => rfl

/-- C9: with a positive increment length the stroke surcharge is monotonically
non-decreasing in the requested stroke. -/
theorem claim9_surcharge_monotone :
    ∀ (baseEnd incLen incCost : Nat) (s1 s2 : Int), 0 < incLen → s1 ≤ s2 →
      PricingEngine.strokeSurcharge baseEnd incLen incCost s1
        ≤ PricingEngine.strokeSurcharge baseEnd incLen incCost s2 := by
  intro B L c s1 s2 hL h12
  unfold PricingEngine.strokeSurcharge
  by_cases h1 : (B : Int) < s1
  · rw [if_pos h1, if_pos (lt_of_lt_of_le h1 h12)]
    exact Nat.mul_le_mul_right _ (Nat.div_le_div_right (by omega))
  · rw [if_neg h1]
    exact Nat.zero_le _

/-- Witness for C9 at `B = 500`, `inc_len = 50`, strokes 550 ≤ 700. -/
theorem claim9_surcharge_monotone_app :
    PricingEngine.strokeSurcharge 500 50 20 550 ≤ PricingEngine.strokeSurcharge 500 50 20 700 :=
  claim9_surcharge_monotone 500 50 20 550 700 (by norm_num) (by norm_num)

/-- C10: an option key absent from the mapping behaves exactly like one mapped
to `false` (zero contribution, no log entry, no exception — the results are
equal); an unselected entry leaves the accumulator untouched; and keys
outside the twelve fixed option keys are ignored. -/
theorem claim10_missing_option_keys :
    (∀ (d : DescInput) (opts : List (String × Bool)) (strokeReq : Int) (k : String),
      opts.lookup k = none →
      PricingEngine.calculate d opts strokeReq
        = PricingEngine.calculate d ((k, false) :: opts) strokeReq)
    ∧ (∀ (s : List Char) (opts : List (String × Bool)) (acc : Nat × List LogEntry)
        (key : String) (pat : List RE) (name : String), optGet opts key = false →
        PricingEngine.addonStep s opts acc (key, pat, name) = acc)
    ∧ (∀ (d : DescInput) (opts extra : List (String × Bool)) (strokeReq : Int),
        (∀ p ∈ extra, p.1 ∉ addonKeys) →
        PricingEngine.calculate d (opts ++ extra) strokeReq
          = PricingEngine.calculate d opts strokeReq) := by
  refine ⟨?_, ?_, ?_⟩
  · intro d opts strokeReq k hk
    apply calculate_opts_congr
    intro k' _
    rw [optGet_cons]
    by_cases h : k' = k
    · subst h
      unfold optGet
      rw [hk, if_pos rfl]
    · rw [if_neg h]
  · intro s opts acc key pat name h
    exact addonStep_unselected s opts acc (key, pat, name) h
  · intro d opts extra strokeReq hext
    apply calculate_opts_congr
    intro k hk
    unfold optGet
    rw [lookup_append_of_right_none _ _ _ (lookup_none_of_keys_ne _ _
      (fun p hp he => hext p hp (he ▸ hk)))]

/-- Witness for C10: the empty mapping and the mapping sending "hall" to
`false` give identical results. -/
theorem claim10_missing_option_keys_app :
    PricingEngine.calculate DescInput.nonText [] 0
      = PricingEngine.calculate DescInput.nonText [("hall", false)] 0 :=
  claim10_missing_option_keys.1 DescInput.nonText [] 0 "hall" rfl
